import Mathlib

/-!
Verification of the `wc_clone` word-count utility (`src/lib.rs`) against its
natural-language specification.

Embedding conventions:
* A Unicode scalar value (Rust `char`) and a raw octet (Rust `u8`) are both
  embedded as `Nat`; text input is a `List Nat` of scalar values and binary
  input is a `List Nat` of byte values.  All theorems are proved for
  arbitrary `Nat` units, which in particular covers the real ranges
  (scalars below 0x110000, bytes below 0x100).
* The four `i32` counters of `FileStats` are embedded as `Nat`: the source
  only ever increments them by one per consumed unit, so the embedding is
  exact for every input shorter than 2^31 units.
* Rust methods that mutate `self` (`FileStats::add`) are embedded as pure
  functions returning the updated record.
* `println!` output is embedded as data: one printed row becomes the list of
  the counters that would be printed (in the fixed source order
  lines, words, chars, bytes) paired with its label, and the one-time
  "Illegal byte sequence" diagnostic becomes the list of file names it was
  emitted for.
-/

namespace WcClone

/-- Embedding of `struct FileStats` (src/lib.rs lines 38-44): the four
counters produced by one scan. -/
structure FileStats where
  word_count : Nat
  char_count : Nat
  byte_count : Nat
  line_count : Nat
  deriving Repr, DecidableEq

/-- Embedding of `FileStats::new` (src/lib.rs lines 116-123): the all-zero
record. -/
def FileStats.new : FileStats :=
  { word_count := 0, char_count := 0, byte_count := 0, line_count := 0 }

/-- Embedding of `FileStats::add` (src/lib.rs lines 125-130): add the four
counters of `other` into `self` componentwise. -/
def FileStats.add (self other : FileStats) : FileStats :=
  { word_count := self.word_count + other.word_count
    char_count := self.char_count + other.char_count
    byte_count := self.byte_count + other.byte_count
    line_count := self.line_count + other.line_count }

/-- Number of bytes of the UTF-8 encoding of one Unicode scalar value; for a
text input this recovers Rust's `str::len` from the scalar sequence. -/
def scalarUtf8Size (c : Nat) : Nat :=
  if c < 0x80 then 1 else if c < 0x800 then 2 else if c < 0x10000 then 3 else 4

/-- UTF-8 byte length of a scalar sequence: Rust's `str::len` of the string
holding exactly these scalars. -/
def utf8Len (s : List Nat) : Nat :=
  (s.map scalarUtf8Size).sum

/-- The `for c in file_content.chars()` loop of `get_stats`
(src/lib.rs lines 231-253), including the trailing `if in_word` flush:
threads the mutable `run_results` and `in_word` through the iteration. -/
def get_stats_loop : List Nat → FileStats → Bool → FileStats
  | [], rr, in_word =>
    if in_word then { rr with word_count := rr.word_count + 1 } else rr
  | c :: rest, rr, in_word =>
    let rr := { rr with char_count := rr.char_count + 1 }
    if c = 10 then
      let rr := { rr with line_count := rr.line_count + 1 }
      get_stats_loop rest
        (if in_word then { rr with word_count := rr.word_count + 1 } else rr) false
    else if c = 32 ∨ c = 9 ∨ c = 13 then
      get_stats_loop rest
        (if in_word then { rr with word_count := rr.word_count + 1 } else rr) false
    else
      get_stats_loop rest rr true

/-- Embedding of `get_stats` (src/lib.rs lines 225-256): scan a decoded text
(a scalar sequence); `byte_count` is set up front to `file_content.len()`,
the UTF-8 byte length. -/
def get_stats (file_content : List Nat) : FileStats :=
  get_stats_loop file_content
    { FileStats.new with byte_count := utf8Len file_content } false

/-- The `for byte in file_content` loop of `get_stats_bin`
(src/lib.rs lines 268-290), byte-for-byte the same state machine as
`get_stats_loop` (the source duplicates the loop body). -/
def get_stats_bin_loop : List Nat → FileStats → Bool → FileStats
  | [], rr, in_word =>
    if in_word then { rr with word_count := rr.word_count + 1 } else rr
  | byte :: rest, rr, in_word =>
    let rr := { rr with char_count := rr.char_count + 1 }
    if byte = 10 then
      let rr := { rr with line_count := rr.line_count + 1 }
      get_stats_bin_loop rest
        (if in_word then { rr with word_count := rr.word_count + 1 } else rr) false
    else if byte = 32 ∨ byte = 9 ∨ byte = 13 then
      get_stats_bin_loop rest
        (if in_word then { rr with word_count := rr.word_count + 1 } else rr) false
    else
      get_stats_bin_loop rest rr true

/-- Embedding of `get_stats_bin` (src/lib.rs lines 262-293): scan a raw byte
sequence; `byte_count` is `file_content.len()`, the number of bytes. -/
def get_stats_bin (file_content : List Nat) : FileStats :=
  get_stats_bin_loop file_content
    { FileStats.new with byte_count := file_content.length } false

/-- The whitespace set of the scanner: space, tab, carriage return, newline. -/
def isWs (c : Nat) : Bool :=
  c = 32 || c = 9 || c = 13 || c = 10

/-- Specification-side word count, from the spec's words: split the input on
runs of whitespace units and count the non-empty runs.  Each non-whitespace
unit reached after skipping whitespace starts one run, which extends through
`dropWhile` to the next whitespace unit. -/
def specWordCount : List Nat → Nat
  | [] => 0
  | c :: rest =>
    if isWs c then specWordCount rest
    else 1 + specWordCount (rest.dropWhile (fun x => !isWs x))
termination_by l => l.length
decreasing_by
  · simp
  · have h := List.Sublist.length_le (List.dropWhile_sublist (p := fun x => !isWs x) (l := rest))
    simp
    omega

/-- Two `FileStats` agreeing on all four counters are equal. -/
theorem FileStats.eq_of_fields {a b : FileStats}
    (hw : a.word_count = b.word_count) (hc : a.char_count = b.char_count)
    (hb : a.byte_count = b.byte_count) (hl : a.line_count = b.line_count) :
    a = b := by
  cases a; cases b; simp_all

/-- The binary loop is the same state machine as the text loop: the source
duplicates the loop body verbatim. -/
theorem get_stats_bin_loop_eq_loop (l : List Nat) :
    ∀ rr b, get_stats_bin_loop l rr b = get_stats_loop l rr b := by
  induction l with
  | nil => intro rr b; rfl
  | cons c rest ih =>
    intro rr b
    simp only [get_stats_bin_loop, get_stats_loop, ih]

/-- The scan loop increments `char_count` once per unit. -/
theorem get_stats_loop_char (l : List Nat) :
    ∀ rr b, (get_stats_loop l rr b).char_count = rr.char_count + l.length := by
  induction l with
  | nil => intro rr b; cases b <;> simp [get_stats_loop]
  | cons c rest ih =>
    intro rr b
    by_cases h10 : c = 10
    · cases b <;> simp [get_stats_loop, h10, ih] <;> omega
    · by_cases hws : c = 32 ∨ c = 9 ∨ c = 13
      · rcases hws with h | h | h <;> cases b <;>
          simp [get_stats_loop, h10, h, ih] <;> omega
      · push_neg at hws
        obtain ⟨h1, h2, h3⟩ := hws
        cases b <;> simp [get_stats_loop, h10, h1, h2, h3, ih] <;> omega

/-- The scan loop never touches `byte_count`. -/
theorem get_stats_loop_byte (l : List Nat) :
    ∀ rr b, (get_stats_loop l rr b).byte_count = rr.byte_count := by
  induction l with
  | nil => intro rr b; cases b <;> simp [get_stats_loop]
  | cons c rest ih =>
    intro rr b
    by_cases h10 : c = 10
    · cases b <;> simp [get_stats_loop, h10, ih]
    · by_cases hws : c = 32 ∨ c = 9 ∨ c = 13
      · rcases hws with h | h | h <;> cases b <;>
          simp [get_stats_loop, h10, h, ih]
      · push_neg at hws
        obtain ⟨h1, h2, h3⟩ := hws
        cases b <;> simp [get_stats_loop, h10, h1, h2, h3, ih]

/-- The scan loop increments `line_count` exactly at newline units. -/
theorem get_stats_loop_line (l : List Nat) :
    ∀ rr b, (get_stats_loop l rr b).line_count = rr.line_count + l.count 10 := by
  induction l with
  | nil => intro rr b; cases b <;> simp [get_stats_loop]
  | cons c rest ih =>
    intro rr b
    by_cases h10 : c = 10
    · cases b <;> simp [get_stats_loop, h10, ih, List.count_cons] <;> omega
    · by_cases hws : c = 32 ∨ c = 9 ∨ c = 13
      · rcases hws with h | h | h <;> cases b <;>
          simp [get_stats_loop, h10, h, ih, List.count_cons]
      · push_neg at hws
        obtain ⟨h1, h2, h3⟩ := hws
        cases b <;> simp [get_stats_loop, h10, h1, h2, h3, ih, List.count_cons]

/-- Word-count invariant of the scan loop: with `in_word` clear the loop adds
the split-based word count of the remainder; with `in_word` set it adds one
more for the word in progress, which extends to the next whitespace unit. -/
theorem get_stats_loop_word (l : List Nat) :
    ∀ rr b, (get_stats_loop l rr b).word_count =
      rr.word_count +
        (if b then 1 + specWordCount (l.dropWhile fun x => !isWs x)
         else specWordCount l) := by
  induction l with
  | nil => intro rr b; cases b <;> simp [get_stats_loop, specWordCount]
  | cons c rest ih =>
    intro rr b
    by_cases h10 : c = 10
    · cases b <;>
        simp [get_stats_loop, h10, ih, specWordCount, isWs, List.dropWhile_cons] <;>
        omega
    · by_cases hws : c = 32 ∨ c = 9 ∨ c = 13
      · rcases hws with h | h | h <;> cases b <;>
          simp [get_stats_loop, h10, h, ih, specWordCount, isWs,
            List.dropWhile_cons] <;> omega
      · push_neg at hws
        obtain ⟨h1, h2, h3⟩ := hws
        cases b <;>
          simp [get_stats_loop, h10, h1, h2, h3, ih, specWordCount, isWs,
            List.dropWhile_cons]

/-- Closed form of `get_stats`: words by whitespace-run splitting, one char
per scalar, UTF-8 byte length, one line per newline. -/
theorem get_stats_eq (l : List Nat) :
    get_stats l =
      { word_count := specWordCount l, char_count := l.length,
        byte_count := utf8Len l, line_count := l.count 10 } := by
  refine FileStats.eq_of_fields ?_ ?_ ?_ ?_
  · simp [get_stats, get_stats_loop_word, FileStats.new]
  · simp [get_stats, get_stats_loop_char, FileStats.new]
  · simp [get_stats, get_stats_loop_byte, FileStats.new]
  · simp [get_stats, get_stats_loop_line, FileStats.new]

/-- Closed form of `get_stats_bin`: identical to `get_stats_eq` except that
`byte_count` is the unit count itself. -/
theorem get_stats_bin_eq (l : List Nat) :
    get_stats_bin l =
      { word_count := specWordCount l, char_count := l.length,
        byte_count := l.length, line_count := l.count 10 } := by
  refine FileStats.eq_of_fields ?_ ?_ ?_ ?_ <;>
    simp [get_stats_bin, get_stats_bin_loop_eq_loop, get_stats_loop_word,
      get_stats_loop_char, get_stats_loop_byte, get_stats_loop_line, FileStats.new]

mutual

/-- Strict UTF-8 decoding of a byte sequence into its Unicode scalar values,
the semantics of Rust's `std::str::from_utf8` / `fs::read_to_string`
validation: 1-byte 00-7F; 2-byte C2-DF + continuation; 3-byte E0 A0-BF,
E1-EC 80-BF, ED 80-9F (no surrogates), EE-EF 80-BF, + continuation; 4-byte
F0 90-BF, F1-F3 80-BF, F4 80-8F, + two continuations.  Overlong encodings,
stray continuation bytes, surrogates and leads above F4 are rejected. -/
def utf8Decode : List Nat → Option (List Nat)
  | [] => some []
  | b :: rest =>
    if b < 0x80 then
      (utf8Decode rest).map (fun t => b :: t)
    else if b < 0xC2 then none
    else if b < 0xE0 then utf8Decode2 b rest
    else if b < 0xF0 then utf8Decode3 b rest
    else if b < 0xF5 then utf8Decode4 b rest
    else none

/-- Continuation of `utf8Decode` after a two-byte lead `b` (C2-DF). -/
def utf8Decode2 (b : Nat) : List Nat → Option (List Nat)
  | [] => none
  | b1 :: rest1 =>
    if 0x80 ≤ b1 ∧ b1 < 0xC0 then
      (utf8Decode rest1).map (fun t => ((b - 0xC0) * 0x40 + (b1 - 0x80)) :: t)
    else none

/-- Continuation of `utf8Decode` after a three-byte lead `b` (E0-EF): the
first continuation range depends on the lead, excluding overlong forms
(E0 A0-BF) and surrogates (ED 80-9F). -/
def utf8Decode3 (b : Nat) : List Nat → Option (List Nat)
  | b1 :: b2 :: rest2 =>
    if ((if b = 0xE0 then 0xA0 else 0x80) ≤ b1 ∧
          b1 < (if b = 0xED then 0xA0 else 0xC0)) ∧
        0x80 ≤ b2 ∧ b2 < 0xC0 then
      (utf8Decode rest2).map
        (fun t => ((b - 0xE0) * 0x1000 + (b1 - 0x80) * 0x40 + (b2 - 0x80)) :: t)
    else none
  | _ => none

/-- Continuation of `utf8Decode` after a four-byte lead `b` (F0-F4): the
first continuation range depends on the lead, excluding overlong forms
(F0 90-BF) and scalars above 0x10FFFF (F4 80-8F). -/
def utf8Decode4 (b : Nat) : List Nat → Option (List Nat)
  | b1 :: b2 :: b3 :: rest3 =>
    if ((if b = 0xF0 then 0x90 else 0x80) ≤ b1 ∧
          b1 < (if b = 0xF4 then 0x90 else 0xC0)) ∧
        (0x80 ≤ b2 ∧ b2 < 0xC0) ∧ 0x80 ≤ b3 ∧ b3 < 0xC0 then
      (utf8Decode rest3).map
        (fun t => ((b - 0xF0) * 0x40000 + (b1 - 0x80) * 0x1000 +
          (b2 - 0x80) * 0x40 + (b3 - 0x80)) :: t)
    else none
  | _ => none

end

/-- Embedding of `enum ReadResult` (src/lib.rs lines 48-52).  `Utf8` holds
the decoded scalar sequence of the string; `Binary` holds the raw bytes;
the `Box<dyn Error>` payload of `ReadError` is not modelled. -/
inductive ReadResult where
  | Utf8 : List Nat → ReadResult
  | Binary : List Nat → ReadResult
  | ReadError : ReadResult
  deriving Repr, DecidableEq

/-- The content-classification step shared by `run_from_stdin`
(src/lib.rs lines 152-156) and `read_file`: valid UTF-8 bytes become `Utf8`
text, anything else falls back to `Binary` holding the buffer unchanged. -/
def classify (buffer : List Nat) : ReadResult :=
  match utf8Decode buffer with
  | some s => ReadResult.Utf8 s
  | none => ReadResult.Binary buffer

/-- What the file system holds at a path when `read_file` runs: either the
byte content, or an acquisition failure (missing file, permission denied,
any I/O error other than invalid data). -/
inductive FileContent where
  | present : List Nat → FileContent
  | ioError : FileContent

/-- Embedding of `read_file` (src/lib.rs lines 206-220): `fs::read_to_string`
succeeds on valid UTF-8; on an `InvalidData` error the file is re-read as raw
bytes (`Binary`); any other I/O error propagates as `ReadError`. -/
def read_file : FileContent → ReadResult
  | FileContent.present buffer => classify buffer
  | FileContent.ioError => ReadResult.ReadError

/-- The scan dispatch of `run_from_stdin` / `run_from_term`: text is scanned
by `get_stats`, binary by `get_stats_bin`; an acquisition error produces no
stats at all (the file contributes nothing). -/
def accumulate : ReadResult → Option FileStats
  | ReadResult.Utf8 s => some (get_stats s)
  | ReadResult.Binary buffer => some (get_stats_bin buffer)
  | ReadResult.ReadError => none

/-- Unfolding lemma for `utf8Len` on a cons cell. -/
theorem utf8Len_cons (c : Nat) (t : List Nat) :
    utf8Len (c :: t) = scalarUtf8Size c + utf8Len t := by
  simp [utf8Len]

/-- Each decoded scalar occupies exactly the number of bytes the decoder
consumed for it: decoding preserves the UTF-8 byte length.  Stated with a
fuel bound for the strong induction. -/
theorem utf8Decode_utf8Len_aux :
    ∀ n B s, B.length ≤ n → utf8Decode B = some s → utf8Len s = B.length := by
  intro n
  induction n with
  | zero =>
    intro B s hlen hs
    cases B with
    | nil =>
      simp only [utf8Decode, Option.some.injEq] at hs
      simp [← hs, utf8Len]
    | cons b rest => simp at hlen
  | succ n ih =>
    intro B s hlen hs
    cases B with
    | nil =>
      simp only [utf8Decode, Option.some.injEq] at hs
      simp [← hs, utf8Len]
    | cons b rest =>
      simp only [List.length_cons, Nat.succ_le_succ_iff] at hlen
      simp only [utf8Decode] at hs
      split_ifs at hs with h1 h2 h3 h4 h5
      · rw [Option.map_eq_some'] at hs
        obtain ⟨t, ht, rfl⟩ := hs
        rw [utf8Len_cons, ih rest t hlen ht]
        simp only [scalarUtf8Size, if_pos h1, List.length_cons]
        omega
      · cases rest with
        | nil => simp [utf8Decode2] at hs
        | cons b1 rest1 =>
          simp only [utf8Decode2] at hs
          by_cases hc : 0x80 ≤ b1 ∧ b1 < 0xC0
          · rw [if_pos hc, Option.map_eq_some'] at hs
            obtain ⟨t, ht, rfl⟩ := hs
            have hl1 : rest1.length ≤ n := by simp at hlen; omega
            rw [utf8Len_cons, ih rest1 t hl1 ht]
            simp only [scalarUtf8Size, List.length_cons]
            split_ifs <;> omega
          · rw [if_neg hc] at hs
            exact absurd hs (by simp)
      · match rest with
        | [] => simp [utf8Decode3] at hs
        | [b1] => simp [utf8Decode3] at hs
        | b1 :: b2 :: rest2 =>
          simp only [utf8Decode3] at hs
          by_cases hc : ((if b = 0xE0 then 0xA0 else 0x80) ≤ b1 ∧
              b1 < (if b = 0xED then 0xA0 else 0xC0)) ∧ 0x80 ≤ b2 ∧ b2 < 0xC0
          · rw [if_pos hc, Option.map_eq_some'] at hs
            obtain ⟨t, ht, rfl⟩ := hs
            have hl2 : rest2.length ≤ n := by simp at hlen; omega
            rw [utf8Len_cons, ih rest2 t hl2 ht]
            obtain ⟨⟨hca, hcb⟩, hcc, hcd⟩ := hc
            simp only [List.length_cons]
            have hhi : b1 < 0xC0 := by split_ifs at hcb <;> omega
            have hkey : 0x800 ≤ (b - 0xE0) * 0x1000 + (b1 - 0x80) * 0x40 + (b2 - 0x80) ∧
                (b - 0xE0) * 0x1000 + (b1 - 0x80) * 0x40 + (b2 - 0x80) < 0x10000 := by
              by_cases he0 : b = 0xE0
              · rw [if_pos he0] at hca; omega
              · rw [if_neg he0] at hca; omega
            simp only [scalarUtf8Size]
            split_ifs <;> omega
          · rw [if_neg hc] at hs
            exact absurd hs (by simp)
      · match rest with
        | [] => simp [utf8Decode4] at hs
        | [b1] => simp [utf8Decode4] at hs
        | [b1, b2] => simp [utf8Decode4] at hs
        | b1 :: b2 :: b3 :: rest3 =>
          simp only [utf8Decode4] at hs
          by_cases hc : ((if b = 0xF0 then 0x90 else 0x80) ≤ b1 ∧
              b1 < (if b = 0xF4 then 0x90 else 0xC0)) ∧
              (0x80 ≤ b2 ∧ b2 < 0xC0) ∧ 0x80 ≤ b3 ∧ b3 < 0xC0
          · rw [if_pos hc, Option.map_eq_some'] at hs
            obtain ⟨t, ht, rfl⟩ := hs
            have hl3 : rest3.length ≤ n := by simp at hlen; omega
            rw [utf8Len_cons, ih rest3 t hl3 ht]
            obtain ⟨⟨hca, hcb⟩, ⟨hcc, hcd⟩, hce, hcf⟩ := hc
            simp only [List.length_cons]
            have hkey : 0x10000 ≤ (b - 0xF0) * 0x40000 + (b1 - 0x80) * 0x1000 +
                (b2 - 0x80) * 0x40 + (b3 - 0x80) := by
              by_cases hf0 : b = 0xF0
              · rw [if_pos hf0] at hca; omega
              · rw [if_neg hf0] at hca; omega
            simp only [scalarUtf8Size]
            split_ifs <;> omega
          · rw [if_neg hc] at hs
            exact absurd hs (by simp)

/-- Decoding preserves the UTF-8 byte length: the scalar sequence of a valid
buffer re-encodes to exactly as many bytes as the buffer holds. -/
theorem utf8Decode_utf8Len (B : List Nat) (s : List Nat)
    (hs : utf8Decode B = some s) : utf8Len s = B.length :=
  utf8Decode_utf8Len_aux B.length B s (Nat.le_refl _) hs

/-- Embedding of `struct CommandOptions` (src/lib.rs lines 30-36): the four
count selectors and the file-path list. -/
structure CommandOptions where
  count_words : Bool
  count_chars : Bool
  count_bytes : Bool
  count_lines : Bool
  files : List String
  deriving Repr, DecidableEq

/-- Recognizer for the binary fallback variant of `ReadResult`. -/
def ReadResult.isBinary : ReadResult → Bool
  | ReadResult.Binary _ => true
  | _ => false

/-- Embedding of `print_run_results` (src/lib.rs lines 299-320) as data: the
counters appended to the output line, in the fixed source order lines,
words, chars, bytes, each present exactly when its selector is set. -/
def selectedCounts (options : CommandOptions) (stats : FileStats) : List Nat :=
  (if options.count_lines then [stats.line_count] else []) ++
    (if options.count_words then [stats.word_count] else []) ++
      (if options.count_chars then [stats.char_count] else []) ++
        (if options.count_bytes then [stats.byte_count] else [])

/-- The per-file loop of `run_from_term` (src/lib.rs lines 168-187), over an
abstract file system `fs`.  Threads the mutable `count_chars` flag and
returns (final flag, `all_stats` in file order, files for which the
"Illegal byte sequence" diagnostic was printed).  A `Utf8` file is scanned
with `get_stats`; a `Binary` file prints the diagnostic and clears the flag
if the flag is still set, then is scanned with `get_stats_bin`; a read error
prints an error line and contributes no stats. -/
def run_from_term_loop (fs : String → FileContent) :
    Bool → List String → Bool × List (FileStats × String) × List String
  | count_chars, [] => (count_chars, [], [])
  | count_chars, file :: rest =>
    match read_file (fs file) with
    | ReadResult.Utf8 s =>
      let r := run_from_term_loop fs count_chars rest
      (r.1, (get_stats s, file) :: r.2.1, r.2.2)
    | ReadResult.Binary bin =>
      if count_chars then
        let r := run_from_term_loop fs false rest
        (r.1, (get_stats_bin bin, file) :: r.2.1, file :: r.2.2)
      else
        let r := run_from_term_loop fs count_chars rest
        (r.1, (get_stats_bin bin, file) :: r.2.1, r.2.2)
    | ReadResult.ReadError => run_from_term_loop fs count_chars rest

/-- The printed rows of `run_from_term` (src/lib.rs lines 162-201): after the
per-file loop, each collected stat is printed with the (possibly cleared)
final options while `aggregated_stats` accumulates the sum; a `total` row
follows exactly when `all_stats` holds more than one entry.  Read-error
lines and the binary diagnostic are not rows; see `run_diagnostics`. -/
def run_from_term (options : CommandOptions) (fs : String → FileContent) :
    List (List Nat × String) :=
  let r := run_from_term_loop fs options.count_chars options.files
  let finalOptions := { options with count_chars := r.1 }
  let aggregated := r.2.1.foldl (fun acc p => acc.add p.1) FileStats.new
  (r.2.1.map fun p => (selectedCounts finalOptions p.1, p.2)) ++
    (if r.2.1.length > 1 then [(selectedCounts finalOptions aggregated, "total")]
     else [])

/-- The files for which `run_from_term` printed the one-time
"Illegal byte sequence" diagnostic (src/lib.rs lines 176-179). -/
def run_diagnostics (options : CommandOptions) (fs : String → FileContent) :
    List String :=
  (run_from_term_loop fs options.count_chars options.files).2.2

/-- The stats the loop collects, independent of the flag state: one entry per
file whose bytes could be acquired, in file order, read errors skipped. -/
def all_stats (fs : String → FileContent) (files : List String) :
    List (FileStats × String) :=
  files.filterMap fun file =>
    match read_file (fs file) with
    | ReadResult.Utf8 s => some (get_stats s, file)
    | ReadResult.Binary bin => some (get_stats_bin bin, file)
    | ReadResult.ReadError => none

/-- Whether some listed file falls back to binary classification. -/
def anyBinary (fs : String → FileContent) (files : List String) : Bool :=
  files.any fun file => (read_file (fs file)).isBinary


/-- The stats the loop collects do not depend on the `count_chars` flag. -/
theorem run_from_term_loop_stats (fs : String → FileContent) (files : List String) :
    ∀ cc, (run_from_term_loop fs cc files).2.1 = all_stats fs files := by
  induction files with
  | nil => intro cc; rfl
  | cons file rest ih =>
    intro cc
    cases h : read_file (fs file) with
    | Utf8 s => simp [run_from_term_loop, all_stats, List.filterMap_cons, h, ih]
    | Binary bin =>
      cases cc <;> simp [run_from_term_loop, all_stats, List.filterMap_cons, h, ih]
    | ReadError => simp [run_from_term_loop, all_stats, List.filterMap_cons, h, ih]

/-- The final `count_chars` flag: cleared exactly when it was set and some
file fell back to binary. -/
theorem run_from_term_loop_flag (fs : String → FileContent) (files : List String) :
    ∀ cc, (run_from_term_loop fs cc files).1 = (cc && !anyBinary fs files) := by
  induction files with
  | nil => intro cc; cases cc <;> simp [run_from_term_loop, anyBinary]
  | cons file rest ih =>
    intro cc
    cases h : read_file (fs file) with
    | Utf8 s =>
      cases cc <;>
        simp [run_from_term_loop, anyBinary, List.any_cons, h, ih,
          ReadResult.isBinary]
    | Binary bin =>
      cases cc <;>
        simp [run_from_term_loop, anyBinary, List.any_cons, h, ih,
          ReadResult.isBinary]
    | ReadError =>
      cases cc <;>
        simp [run_from_term_loop, anyBinary, List.any_cons, h, ih,
          ReadResult.isBinary]

/-- The "Illegal byte sequence" diagnostic is printed at most once per run:
exactly once when character counting was requested and some file fell back
to binary, never otherwise. -/
theorem run_from_term_loop_diag (fs : String → FileContent) (files : List String) :
    ∀ cc, (run_from_term_loop fs cc files).2.2.length =
      if cc && anyBinary fs files then 1 else 0 := by
  induction files with
  | nil => intro cc; cases cc <;> simp [run_from_term_loop, anyBinary]
  | cons file rest ih =>
    intro cc
    cases h : read_file (fs file) with
    | Utf8 s =>
      cases cc <;>
        simp [run_from_term_loop, anyBinary, List.any_cons, h, ih,
          ReadResult.isBinary]
    | Binary bin =>
      cases cc <;>
        simp [run_from_term_loop, anyBinary, List.any_cons, h, ih,
          ReadResult.isBinary]
    | ReadError =>
      cases cc <;>
        simp [run_from_term_loop, anyBinary, List.any_cons, h, ih,
          ReadResult.isBinary]

/-- Every scalar encodes to at least one byte, so a scalar sequence is never
longer than its UTF-8 encoding. -/
theorem length_le_utf8Len (l : List Nat) : l.length ≤ utf8Len l := by
  induction l with
  | nil => simp [utf8Len]
  | cons c t ih =>
    rw [utf8Len_cons]
    have h1 : 1 ≤ scalarUtf8Size c := by
      simp only [scalarUtf8Size]; split_ifs <;> omega
    simp only [List.length_cons]
    omega

/-- Splitting an all-whitespace input on whitespace runs leaves no non-empty
run. -/
theorem specWordCount_eq_zero_of_ws (l : List Nat)
    (h : ∀ c ∈ l, isWs c = true) : specWordCount l = 0 := by
  induction l with
  | nil => simp [specWordCount]
  | cons c rest ih =>
    have hc : isWs c = true := h c (List.mem_cons_self c rest)
    simp only [specWordCount, hc, if_true]
    exact ih fun x hx => h x (List.mem_cons_of_mem c hx)

/-- C1: for every input, the `word_count` produced by the single-pass scanner
equals the number of non-empty runs obtained by splitting the input on runs
of the whitespace units space, tab, carriage return and newline, identically
for the text-unit (`get_stats`) and byte-unit (`get_stats_bin`) variants. -/
theorem C1_word_count_eq_split_runs (l : List Nat) :
    (get_stats l).word_count = specWordCount l ∧
      (get_stats_bin l).word_count = specWordCount l := by
  constructor <;> simp [get_stats_eq, get_stats_bin_eq]

/-- C2: for every byte buffer `B`, scanning the classified input (text or
binary fallback) yields a `Stats` whose `byte_count` is the byte length of
`B`; for text this is the encoded byte length of the decoded scalars. -/
theorem C2_byte_count_eq_length (B : List Nat) :
    ∃ st, accumulate (classify B) = some st ∧ st.byte_count = B.length := by
  unfold classify
  cases hd : utf8Decode B with
  | none =>
    exact ⟨_, rfl, by simp [accumulate, get_stats_bin_eq]⟩
  | some s =>
    exact ⟨_, rfl, by simp [accumulate, get_stats_eq, utf8Decode_utf8Len B s hd]⟩

/-- C4: classification and scanning are total on every byte content: the
classifier never produces an acquisition error, and the scan of the
classified input always yields a `Stats` (the binary fallback handles any
byte sequence).  In this embedding `get_stats`, `get_stats_bin` and
`classify` are total functions, so no input can make them panic or abort. -/
theorem C4_total_no_panic (B : List Nat) :
    classify B ≠ ReadResult.ReadError ∧
      (accumulate (classify B)).isSome = true ∧
      accumulate (ReadResult.Binary B) = some (get_stats_bin B) := by
  refine ⟨?_, ?_, rfl⟩ <;> unfold classify <;> cases hd : utf8Decode B <;>
    simp [accumulate]

/-- Witness for C4 at the concrete invalid byte 0xFF (its conclusion
contains negations, discharged here at a closed input). -/
theorem C4_total_no_panic_witness :
    classify [255] ≠ ReadResult.ReadError ∧
      (accumulate (classify [255])).isSome = true ∧
      accumulate (ReadResult.Binary [255]) = some (get_stats_bin [255]) :=
  C4_total_no_panic [255]

/-- C5: `FileStats::add` (the `combine` of the spec) adds the four counters
independently, is associative and commutative, and adding the zero-valued
`FileStats::new` changes nothing. -/
theorem C5_combine_assoc_comm_zero (a b c s : FileStats) :
    (a.add b).add c = a.add (b.add c) ∧ a.add b = b.add a ∧
      s.add FileStats.new = s :=
  ⟨FileStats.eq_of_fields (Nat.add_assoc _ _ _) (Nat.add_assoc _ _ _)
      (Nat.add_assoc _ _ _) (Nat.add_assoc _ _ _),
    FileStats.eq_of_fields (Nat.add_comm _ _) (Nat.add_comm _ _)
      (Nat.add_comm _ _) (Nat.add_comm _ _),
    FileStats.eq_of_fields rfl rfl rfl rfl⟩

/-- C6: classifying acquired bytes yields exactly one of three outcomes:
valid UTF-8 becomes `Utf8` with the decoded scalars, an encoding failure
becomes `Binary` holding the original buffer unchanged, and any other
acquisition failure is the distinct `ReadError` variant, which is not an
empty `Utf8` or `Binary` result. -/
theorem C6_classification_trichotomy (B : List Nat) :
    ((∃ s, utf8Decode B = some s ∧
        read_file (FileContent.present B) = ReadResult.Utf8 s) ∨
      (utf8Decode B = none ∧
        read_file (FileContent.present B) = ReadResult.Binary B)) ∧
      read_file FileContent.ioError = ReadResult.ReadError ∧
      (∀ s, ReadResult.ReadError ≠ ReadResult.Utf8 s) ∧
      (∀ bs, ReadResult.ReadError ≠ ReadResult.Binary bs) := by
  refine ⟨?_, rfl, ?_, ?_⟩
  · cases hd : utf8Decode B with
    | none => exact Or.inr ⟨rfl, by simp [read_file, classify, hd]⟩
    | some s => exact Or.inl ⟨s, rfl, by simp [read_file, classify, hd]⟩
  · intro s h
    exact ReadResult.noConfusion h
  · intro bs h
    exact ReadResult.noConfusion h

/-- Witness for C6 at the concrete invalid byte 0xFF. -/
theorem C6_classification_trichotomy_witness :
    ((∃ s, utf8Decode [255] = some s ∧
        read_file (FileContent.present [255]) = ReadResult.Utf8 s) ∨
      (utf8Decode [255] = none ∧
        read_file (FileContent.present [255]) = ReadResult.Binary [255])) ∧
      read_file FileContent.ioError = ReadResult.ReadError ∧
      (∀ s, ReadResult.ReadError ≠ ReadResult.Utf8 s) ∧
      (∀ bs, ReadResult.ReadError ≠ ReadResult.Binary bs) :=
  C6_classification_trichotomy [255]

/-- C7: for every input, `line_count` equals the number of newline units,
independent of all surrounding content, in both scanner variants. -/
theorem C7_line_count_eq_newlines (l : List Nat) :
    (get_stats l).line_count = l.count 10 ∧
      (get_stats_bin l).line_count = l.count 10 := by
  constructor <;> simp [get_stats_eq, get_stats_bin_eq]

/-- C8: empty input yields the all-zero `Stats` in both variants, and every
input consisting solely of whitespace units (space, tab, CR, LF) yields
`word_count = 0` in both variants. -/
theorem C8_empty_and_whitespace (l : List Nat) (h : ∀ c ∈ l, isWs c = true) :
    get_stats [] = FileStats.new ∧ get_stats_bin [] = FileStats.new ∧
      (get_stats l).word_count = 0 ∧ (get_stats_bin l).word_count = 0 := by
  refine ⟨rfl, rfl, ?_, ?_⟩ <;>
    simp [get_stats_eq, get_stats_bin_eq, specWordCount_eq_zero_of_ws l h]

/-- Witness for C8 at the concrete whitespace-only input
space-tab-CR-LF. -/
theorem C8_empty_and_whitespace_witness :
    (∀ c ∈ [32, 9, 13, 10], isWs c = true) ∧
      (get_stats [] = FileStats.new ∧ get_stats_bin [] = FileStats.new ∧
        (get_stats [32, 9, 13, 10]).word_count = 0 ∧
        (get_stats_bin [32, 9, 13, 10]).word_count = 0) :=
  ⟨by decide, C8_empty_and_whitespace [32, 9, 13, 10] (by decide)⟩

/-- C10: the byte-unit scanner counts one "char" per byte, so
`char_count = byte_count` for binary input, while the text-unit scanner
counts scalars, each at least one encoded byte, so
`char_count ≤ byte_count`. -/
theorem C10_char_count_vs_byte_count (l : List Nat) :
    (get_stats_bin l).char_count = (get_stats_bin l).byte_count ∧
      (get_stats l).char_count ≤ (get_stats l).byte_count := by
  constructor
  · simp [get_stats_bin_eq]
  · simp only [get_stats_eq]
    exact length_le_utf8Len l

/-- Concrete run for C3: character counting requested, a one-byte text file
followed by a binary file (the invalid byte 0xFF). -/
def c3options : CommandOptions :=
  { count_words := true, count_chars := true, count_bytes := true,
    count_lines := true, files := ["a.txt", "b.bin"] }

/-- The file system for the C3 run: "a.txt" holds the single byte 0x61
("a"), "b.bin" holds the invalid byte 0xFF. -/
def c3fs : String → FileContent := fun file =>
  if file = "a.txt" then FileContent.present [97]
  else if file = "b.bin" then FileContent.present [255]
  else FileContent.ioError

/-- C3 fails on the code: with all four counts requested, the text file
"a.txt" should keep its character count (row [lines, words, chars, bytes] =
[0, 1, 1, 1]) when only "b.bin" is binary, but the printed rows carry no
char column at all — the flag cleared by the binary file suppresses
character output for every row of the run, including the text file and the
total row. -/
theorem C3_counterexample :
    c3options.count_chars = true ∧
      run_from_term c3options c3fs =
        [([0, 1, 1], "a.txt"), ([0, 1, 1], "b.bin"), ([0, 2, 2], "total")] ∧
      run_diagnostics c3options c3fs = ["b.bin"] := by
  decide

/-- C3 (amended): when character counting was requested and some input falls
back to binary classification, the caller emits the diagnostic exactly once,
but suppresses character-count output for the whole run — the printed rows
are exactly those of a run with character counting off, because printing
happens after the loop with the final flag state. -/
theorem C3_amended_char_suppression_run_wide (options : CommandOptions)
    (fs : String → FileContent) (hcc : options.count_chars = true)
    (hbin : anyBinary fs options.files = true) :
    run_from_term options fs =
      run_from_term { options with count_chars := false } fs ∧
      (run_diagnostics options fs).length = 1 := by
  constructor
  · simp only [run_from_term, run_from_term_loop_stats, run_from_term_loop_flag,
      hcc, hbin, Bool.not_true, Bool.and_false, Bool.false_and, Bool.and_self]
  · simp only [run_diagnostics, run_from_term_loop_diag, hcc, hbin,
      Bool.and_self, if_true]

/-- Witness for the amended C3 at the concrete two-file run. -/
theorem C3_amended_witness :
    c3options.count_chars = true ∧ anyBinary c3fs c3options.files = true ∧
      (run_from_term c3options c3fs =
        run_from_term { c3options with count_chars := false } c3fs ∧
        (run_diagnostics c3options c3fs).length = 1) :=
  ⟨by decide, by decide,
    C3_amended_char_suppression_run_wide c3options c3fs (by decide) (by decide)⟩

/-- Concrete run for C9: two files given, the second unreadable. -/
def c9options : CommandOptions :=
  { count_words := true, count_chars := false, count_bytes := true,
    count_lines := true, files := ["a.txt", "missing.txt"] }

/-- The file system for the C9 run: "a.txt" holds one byte, every other
path fails to read. -/
def c9fs : String → FileContent := fun file =>
  if file = "a.txt" then FileContent.present [97] else FileContent.ioError

/-- C9 fails on the code: two files were given, yet no `total` row is
printed, because the unreadable file contributed no stats and the total row
is gated on the number of collected stats, not the number of files given. -/
theorem C9_counterexample :
    c9options.files.length = 2 ∧
      run_from_term c9options c9fs = [([0, 1, 1], "a.txt")] := by
  decide

/-- C9 (amended): the printed rows are exactly one row per successfully read
file (in file order, read errors contributing nothing), followed by a
trailing `total` row exactly when more than one file produced stats; the
total row's counters are those of the componentwise sum of the per-file
stats, printed under the same final options as the other rows. -/
theorem C9_amended_total_row (options : CommandOptions)
    (fs : String → FileContent) :
    run_from_term options fs =
      ((all_stats fs options.files).map fun p =>
        (selectedCounts
          { options with count_chars :=
              options.count_chars && !anyBinary fs options.files } p.1, p.2)) ++
      (if 1 < (all_stats fs options.files).length then
        [(selectedCounts
            { options with count_chars :=
                options.count_chars && !anyBinary fs options.files }
            ((all_stats fs options.files).foldl (fun acc p => acc.add p.1)
              FileStats.new), "total")]
       else []) := by
  simp only [run_from_term, run_from_term_loop_stats, run_from_term_loop_flag,
    gt_iff_lt]

end WcClone
